import Mathlib

/-!
Verification of the voxel command-pipeline library: a shallow embedding of
the grid data model (`voxel.rs`), the command-list state machine
(`bevy_voxel.rs`), the concrete commands (`command.rs`) and the shape
generator (`shape.rs`), together with theorems settling the specification
claims.

Conventions of the embedding:
* `u32`/`usize`/`i32` values are modelled as `Nat`/`Int`.  Arithmetic is
  exact; in the Rust source an overflow is a debug panic, and every
  overflowing path of `check_grid_size` already ends in the function's own
  panic, which we model as `none`.  All other arithmetic sites are used
  only under the overflow guard, where no wrap can occur.
* A Rust panic (`panic!`, `expect`, a failed `assert!`) is modelled by an
  `Option` result being `none`.
* GPU buffers are modelled by their CPU-visible content (lists of words or
  of vectors) and their byte sizes.
-/

/-- Model of `glam::UVec3`: three unsigned 32-bit components as `Nat`. -/
structure UVec3 where
  x : Nat
  y : Nat
  z : Nat
deriving DecidableEq, Repr

/-- `check_grid_size` (voxel.rs): panics (`none`) when any dimension reaches
`i32::MAX - 2` or when the byte size reaches `i32::MAX`; otherwise returns
`(vec_size, buf_size)`. -/
def check_grid_size (size : UVec3) : Option (Nat × Nat) :=
  if size.x ≥ 2 ^ 31 - 3 ∨ size.y ≥ 2 ^ 31 - 3 ∨ size.z ≥ 2 ^ 31 - 3 then
    none
  else if (size.x + 2) * (size.y + 2) * (size.z + 2) * 4 ≥ 2 ^ 31 - 1 then
    none
  else
    some ((size.x + 2) * (size.y + 2) * (size.z + 2),
      (size.x + 2) * (size.y + 2) * (size.z + 2) * 4)

/-- `get_vec_size` (voxel.rs): length of the data vector, padding included. -/
def get_vec_size (size : UVec3) : Option Nat :=
  (check_grid_size size).map Prod.fst

/-- `get_buf_size` (voxel.rs): length of the GPU buffer in bytes. -/
def get_buf_size (size : UVec3) : Option Nat :=
  (check_grid_size size).map Prod.snd

/-- `voxel_index` (voxel.rs): index of unpadded voxel `(x,y,z)` in the data
vector.  `u32` arithmetic; used only under the grid-size guard, where no
overflow can occur. -/
def voxel_index (size : UVec3) (x y z : Nat) : Nat :=
  (x + 1) + (y + 1) * (size.x + 2) + (z + 1) * (size.x + 2) * (size.y + 2)

/-- The `as usize` cast of an `i32` value: reinterpret mod `2^64`. -/
def as_usize (v : Int) : Nat :=
  (v % 2 ^ 64).toNat

/-- `voxel_index_i32` (voxel.rs): signed variant; `-1` reaches the leading
padding and `size.<c>` the trailing padding. -/
def voxel_index_i32 (size : UVec3) (x y z : Int) : Nat :=
  as_usize ((x + 1) + (y + 1) * ((size.x : Int) + 2)
    + (z + 1) * ((size.x : Int) + 2) * ((size.y : Int) + 2))

/-- `VoxelGridVec` (voxel.rs): CPU-side grid, one `u32` word per voxel. -/
structure VoxelGridVec where
  size : UVec3
  data : List Nat
deriving DecidableEq, Repr

/-- The unpadded coordinates in the iteration order of
`VoxelGridVec::new`: `z` outermost, then `y`, then `x`. -/
def unpadded_coords (size : UVec3) : List (Nat × Nat × Nat) :=
  (List.range size.z).flatMap fun z =>
    (List.range size.y).flatMap fun y =>
      (List.range size.x).map fun x => (x, y, z)

/-- `VoxelGridVec::new` (voxel.rs): resize to `get_vec_size` filled with 0,
then, when the material is non-zero, store `(material as u32) << 24` at
every unpadded index. -/
def VoxelGridVec.new (size : UVec3) (material : Nat) : Option VoxelGridVec :=
  match get_vec_size size with
  | none => none
  | some n =>
    some { size := size,
           data :=
             if material ≠ 0 then
               (unpadded_coords size).foldl
                 (fun d c => d.set (voxel_index size c.1 c.2.1 c.2.2) (material <<< 24))
                 (List.replicate n 0)
             else List.replicate n 0 }

/-- `CommandListState` (bevy_voxel.rs). -/
inductive CommandListState where
  | Init
  | Busy
  | Mapping
  | Done
deriving DecidableEq, Repr

/-- `CommandList::commands_mut` (bevy_voxel.rs): `true` when the guard is
returned (`Some`), `false` when access is refused (`None`).  The source
condition is literally `*guard.state != Init || *guard.state == Done`. -/
def commands_mut (s : CommandListState) : Bool :=
  decide (s ≠ CommandListState.Init) || decide (s = CommandListState.Done)

/-- `CommandList::run_again` (bevy_voxel.rs): sets the state to `Init` when
it is `Done`, then returns whether the state is now `Init`, along with the
resulting state. -/
def run_again (s : CommandListState) : Bool × CommandListState :=
  let s1 := if s = CommandListState.Done then CommandListState.Init else s
  (decide (s1 = CommandListState.Init), s1)

/-- One completion callback of `map_commands` (bevy_voxel.rs): the shared
counter is an `AtomicUsize`; `fetch_sub(1)` returns the previous value and
stores the wrapped decrement, and the state is set to `Done` when the
*previous* value is 0. -/
def map_callback_step (c : Nat × CommandListState) : Nat × CommandListState :=
  let old := c.1
  let newCount := (c.1 + (2 ^ 64 - 1)) % 2 ^ 64
  if old = 0 then (newCount, CommandListState.Done) else (newCount, c.2)

/-- The counter and state of a command list with `n` commands after `k` of
its completion callbacks have fired.  `map_commands` initialises the
counter to `commands.len()` with the state already `Mapping`. -/
def after_callbacks (n k : Nat) : Nat × CommandListState :=
  map_callback_step^[k] (n, CommandListState.Mapping)

/-- `GetVoxelsCommand` (command.rs): the fields set by `prepare`.  The copy
buffer is modelled by its byte length. -/
structure GetVoxelsCmd where
  size : UVec3
  buffer_size : Nat
  copy_buffer : Option Nat
deriving DecidableEq, Repr

/-- `GetVoxelsCommand::prepare` (command.rs): when the shared grid is
absent it returns early (`let Some(grid) = &*guard else { return }`);
otherwise it records the grid size, the byte size and allocates the copy
buffer.  `none` models the panic of `get_buf_size` on oversized grids. -/
def get_voxels_prepare (cmd : GetVoxelsCmd) (grid : Option UVec3) : Option GetVoxelsCmd :=
  match grid with
  | none => some cmd
  | some gsize =>
    match get_buf_size gsize with
    | none => none
    | some bs => some { size := gsize, buffer_size := bs, copy_buffer := some bs }

/-- `VERTEXES_PER_FACE` (voxel.rs). -/
def VERTEXES_PER_FACE : Nat := 6

/-- `FACES_PER_VOXEL` (voxel.rs). -/
def FACES_PER_VOXEL : Nat := 6

/-- `FACE_FILLED_NUM_BITS` (voxel.rs): usable bits per 32-bit mask word. -/
def FACE_FILLED_NUM_BITS : Nat := 30

/-- `WGSL_VEC3_STRIDE` (voxel.rs): `size_of::<Vec4>()`; WGSL pads vec3. -/
def WGSL_VEC3_STRIDE : Nat := 16

/-- `WGSL_FACE_STRIDE` (voxel.rs). -/
def WGSL_FACE_STRIDE : Nat := WGSL_VEC3_STRIDE * VERTEXES_PER_FACE

/-- `WGSL_FACES_STRIDE` (voxel.rs). -/
def WGSL_FACES_STRIDE : Nat := WGSL_FACE_STRIDE * FACES_PER_VOXEL

/-- The size/offset fields computed by `GenerateMeshImpl::new` (voxel.rs). -/
structure GenerateMeshImplInfo where
  num_voxels : Nat
  normals_offset : Nat
  face_filled_offset : Nat
  buffer_size : Nat
deriving DecidableEq, Repr

/-- `GenerateMeshImpl::new` (voxel.rs): layout of the scratch buffer for a
grid of the given size. -/
def generate_mesh_impl_new (gsize : UVec3) : GenerateMeshImplInfo :=
  let num_voxels := gsize.x * gsize.y * gsize.z
  let normals_offset := num_voxels * WGSL_FACES_STRIDE
  let face_filled_offset := normals_offset + num_voxels * WGSL_FACES_STRIDE
  let num_faces := num_voxels * FACES_PER_VOXEL
  let buffer_size := face_filled_offset
      + (num_faces + FACE_FILLED_NUM_BITS - 1) / FACE_FILLED_NUM_BITS * 4
  { num_voxels := num_voxels, normals_offset := normals_offset,
    face_filled_offset := face_filled_offset, buffer_size := buffer_size }

/-- `GenerateMeshCommand::prepare` (command.rs): panics (`none`) via
`expect("Missing grid in GenerateMeshCommand")` when the shared grid is
absent; otherwise builds the `GenerateMeshImpl`. -/
def generate_mesh_prepare (grid : Option UVec3) : Option GenerateMeshImplInfo :=
  match grid with
  | none => none
  | some gsize => some (generate_mesh_impl_new gsize)

/-- `GeometryOp` (command.rs). -/
inductive GeometryOp where
  | PasteCube (size : UVec3) (offset : Int × Int × Int) (flags : Nat) (material : Nat)
  | PasteSphere (diameter : Nat) (offset : Int × Int × Int) (flags : Nat) (material : Nat)
deriving DecidableEq, Repr

/-- Workgroup count computed by `GeometryImpl::paste_cube` /
`paste_sphere` (voxel.rs); 64 voxels per workgroup for both kernels. -/
def geometry_impl_workgroups (op : GeometryOp) : Nat :=
  match op with
  | .PasteCube size _ _ _ => ((size.x + 1) * (size.y + 1) * (size.z + 1) + 64 - 1) / 64
  | .PasteSphere d _ _ _ => ((d + 1) * (d + 1) * (d + 1) + 64 - 1) / 64

/-- `GeometryCommand::prepare` (command.rs): panics (`none`) via
`expect("Missing grid in GeometryCommand")` when the shared grid is
absent; otherwise builds the `GeometryImpl`. -/
def geometry_prepare (grid : Option UVec3) (op : GeometryOp) : Option Nat :=
  match grid with
  | none => none
  | some _ => some (geometry_impl_workgroups op)

/-- Mixed-radix bound: three digits below their radices encode below the
product of the radices. -/
lemma mixed_radix_lt {A B C a b c : Nat} (ha : a < A) (hb : b < B) (hc : c < C) :
    a + b * A + c * (A * B) < A * B * C := by
  have h1 : a + b * A < A * B := by
    calc a + b * A < A + b * A := by omega
      _ = (b + 1) * A := by ring
      _ ≤ B * A := Nat.mul_le_mul_right A hb
      _ = A * B := Nat.mul_comm B A
  calc a + b * A + c * (A * B) < A * B + c * (A * B) := by omega
    _ = (c + 1) * (A * B) := by ring
    _ ≤ C * (A * B) := Nat.mul_le_mul_right (A * B) hc
    _ = A * B * C := by ring

/-- Two-digit mixed-radix encodings with equal values have equal digits. -/
lemma enc2_inj {B b c b' c' : Nat} (hb : b < B) (hb' : b' < B)
    (h : b + c * B = b' + c' * B) : b = b' ∧ c = c' := by
  have hB : 0 < B := Nat.lt_of_le_of_lt (Nat.zero_le b) hb
  have e1 : b = b' := by
    calc b = (b + c * B) % B := by rw [Nat.add_mul_mod_self_right, Nat.mod_eq_of_lt hb]
      _ = (b' + c' * B) % B := by rw [h]
      _ = b' := by rw [Nat.add_mul_mod_self_right, Nat.mod_eq_of_lt hb']
  refine ⟨e1, ?_⟩
  subst e1
  have h2 : c * B = c' * B := by omega
  exact Nat.eq_of_mul_eq_mul_right hB h2

/-- Three-digit mixed-radix encodings with equal values have equal digits. -/
lemma enc3_inj {A B a b c a' b' c' : Nat} (ha : a < A) (hb : b < B)
    (ha' : a' < A) (hb' : b' < B)
    (h : a + b * A + c * (A * B) = a' + b' * A + c' * (A * B)) :
    a = a' ∧ b = b' ∧ c = c' := by
  have h1 : a + (b + c * B) * A = a' + (b' + c' * B) * A := by
    calc a + (b + c * B) * A = a + b * A + c * (A * B) := by ring
      _ = a' + b' * A + c' * (A * B) := h
      _ = a' + (b' + c' * B) * A := by ring
  obtain ⟨e1, e2⟩ := enc2_inj ha ha' h1
  obtain ⟨e3, e4⟩ := enc2_inj hb hb' e2
  exact ⟨e1, e3, e4⟩

/-- Decoding by `%` and `/` and re-encoding gives the value back. -/
lemma dec_enc_nat (PX PY : Nat) (n : Nat) :
    n % PX + (n / PX % PY) * PX + n / (PX * PY) * (PX * PY) = n := by
  calc n % PX + (n / PX % PY) * PX + n / (PX * PY) * (PX * PY)
      = n % PX + (n / PX % PY) * PX + n / PX / PY * (PX * PY) := by
        rw [Nat.div_div_eq_div_mul]
    _ = n % PX + PX * (n / PX % PY + PY * (n / PX / PY)) := by ring
    _ = n % PX + PX * (n / PX) := by rw [Nat.mod_add_div (n / PX) PY]
    _ = n := Nat.mod_add_div n PX

/-- Unfolding `get_vec_size = some L`: `L` is the padded product and the
overflow guard is satisfied. -/
lemma get_vec_size_some {size : UVec3} {L : Nat} (h : get_vec_size size = some L) :
    L = (size.x + 2) * (size.y + 2) * (size.z + 2) ∧ L * 4 < 2 ^ 31 - 1 := by
  unfold get_vec_size check_grid_size at h
  split at h
  · simp at h
  · split at h
    next hbig => simp at h
    next hbig =>
      simp at h
      omega

/-- Under the overflow guard, `voxel_index_i32` on the padded box equals
the exact mixed-radix encoding of the shifted coordinates. -/
lemma voxel_index_i32_eq_encode {size : UVec3} {x y z : Int}
    (hx : -1 ≤ x) (hy : -1 ≤ y) (hz : -1 ≤ z)
    (hxu : x ≤ (size.x : Int)) (hyu : y ≤ (size.y : Int)) (hzu : z ≤ (size.z : Int))
    (hL : (size.x + 2) * (size.y + 2) * (size.z + 2) < 2 ^ 29) :
    voxel_index_i32 size x y z =
      (x + 1).toNat + (y + 1).toNat * (size.x + 2)
        + (z + 1).toNat * ((size.x + 2) * (size.y + 2)) := by
  have hxa : (x + 1).toNat < size.x + 2 := by omega
  have hya : (y + 1).toNat < size.y + 2 := by omega
  have hza : (z + 1).toNat < size.z + 2 := by omega
  have hx1 : ((x + 1).toNat : Int) = x + 1 := by omega
  have hy1 : ((y + 1).toNat : Int) = y + 1 := by omega
  have hz1 : ((z + 1).toNat : Int) = z + 1 := by omega
  have henc : (x + 1) + (y + 1) * ((size.x : Int) + 2)
      + (z + 1) * ((size.x : Int) + 2) * ((size.y : Int) + 2)
      = (((x + 1).toNat + (y + 1).toNat * (size.x + 2)
          + (z + 1).toNat * ((size.x + 2) * (size.y + 2)) : Nat) : Int) := by
    push_cast
    rw [hx1, hy1, hz1]
    ring
  have hlt : (x + 1).toNat + (y + 1).toNat * (size.x + 2)
      + (z + 1).toNat * ((size.x + 2) * (size.y + 2))
      < (size.x + 2) * (size.y + 2) * (size.z + 2) :=
    mixed_radix_lt hxa hya hza
  unfold voxel_index_i32 as_usize
  rw [henc]
  omega

/-- C5: under the overflow guard, the signed index function is a bijection
from the padded box `[-1,sx] × [-1,sy] × [-1,sz]` onto `[0, L)` where `L`
is `get_vec_size`, and at `(sx,sy,sz)` it hits `L - 1`, the last cell. -/
theorem voxel_index_i32_bijection (size : UVec3) (L : Nat)
    (h : get_vec_size size = some L) :
    Set.BijOn (fun p : Int × Int × Int => voxel_index_i32 size p.1 p.2.1 p.2.2)
      {p : Int × Int × Int | -1 ≤ p.1 ∧ p.1 ≤ (size.x : Int) ∧ -1 ≤ p.2.1
        ∧ p.2.1 ≤ (size.y : Int) ∧ -1 ≤ p.2.2 ∧ p.2.2 ≤ (size.z : Int)}
      {n : Nat | n < L} ∧
    voxel_index_i32 size (size.x : Int) (size.y : Int) (size.z : Int) = L - 1 := by
  obtain ⟨hLe, hguard⟩ := get_vec_size_some h
  have hL29 : (size.x + 2) * (size.y + 2) * (size.z + 2) < 2 ^ 29 := by omega
  constructor
  · refine ⟨?_, ?_, ?_⟩
    · intro p hp
      obtain ⟨h1, h2, h3, h4, h5, h6⟩ := hp
      have heq := voxel_index_i32_eq_encode h1 h3 h5 h2 h4 h6 hL29
      have hxa : (p.1 + 1).toNat < size.x + 2 := by omega
      have hya : (p.2.1 + 1).toNat < size.y + 2 := by omega
      have hza : (p.2.2 + 1).toNat < size.z + 2 := by omega
      have hrad := mixed_radix_lt hxa hya hza
      show voxel_index_i32 size p.1 p.2.1 p.2.2 ∈ {n : Nat | n < L}
      simp only [Set.mem_setOf_eq]
      rw [heq]
      omega
    · intro p hp q hq hfe
      obtain ⟨h1, h2, h3, h4, h5, h6⟩ := hp
      obtain ⟨h1', h2', h3', h4', h5', h6'⟩ := hq
      have hfe' : voxel_index_i32 size p.1 p.2.1 p.2.2
          = voxel_index_i32 size q.1 q.2.1 q.2.2 := hfe
      rw [voxel_index_i32_eq_encode h1 h3 h5 h2 h4 h6 hL29,
        voxel_index_i32_eq_encode h1' h3' h5' h2' h4' h6' hL29] at hfe'
      have hxa : (p.1 + 1).toNat < size.x + 2 := by omega
      have hya : (p.2.1 + 1).toNat < size.y + 2 := by omega
      have hxa' : (q.1 + 1).toNat < size.x + 2 := by omega
      have hya' : (q.2.1 + 1).toNat < size.y + 2 := by omega
      obtain ⟨e1, e2, e3⟩ := enc3_inj hxa hya hxa' hya' hfe'
      have ex : p.1 = q.1 := by omega
      have ey : p.2.1 = q.2.1 := by omega
      have ez : p.2.2 = q.2.2 := by omega
      exact Prod.ext ex (Prod.ext ey ez)
    · intro n hn
      simp only [Set.mem_setOf_eq] at hn
      have hPX : 0 < size.x + 2 := by omega
      have hPY : 0 < size.y + 2 := by omega
      have hPXY : 0 < (size.x + 2) * (size.y + 2) := Nat.mul_pos hPX hPY
      have hm1 : n % (size.x + 2) < size.x + 2 := Nat.mod_lt n hPX
      have hm2 : n / (size.x + 2) % (size.y + 2) < size.y + 2 := Nat.mod_lt _ hPY
      have hm3 : n / ((size.x + 2) * (size.y + 2)) < size.z + 2 := by
        rw [Nat.div_lt_iff_lt_mul hPXY]
        calc n < L := hn
          _ = (size.z + 2) * ((size.x + 2) * (size.y + 2)) := by rw [hLe]; ring
      obtain ⟨r1, hr1, hr1b⟩ : ∃ r, n % (size.x + 2) = r ∧ r < size.x + 2 := ⟨_, rfl, hm1⟩
      obtain ⟨r2, hr2, hr2b⟩ : ∃ r, n / (size.x + 2) % (size.y + 2) = r ∧ r < size.y + 2 :=
        ⟨_, rfl, hm2⟩
      obtain ⟨r3, hr3, hr3b⟩ : ∃ r, n / ((size.x + 2) * (size.y + 2)) = r ∧ r < size.z + 2 :=
        ⟨_, rfl, hm3⟩
      refine ⟨((r1 : Int) - 1, (r2 : Int) - 1, (r3 : Int) - 1), ?_, ?_⟩
      · show -1 ≤ (r1 : Int) - 1 ∧ (r1 : Int) - 1 ≤ (size.x : Int) ∧ -1 ≤ (r2 : Int) - 1
          ∧ (r2 : Int) - 1 ≤ (size.y : Int) ∧ -1 ≤ (r3 : Int) - 1
          ∧ (r3 : Int) - 1 ≤ (size.z : Int)
        exact ⟨by omega, by omega, by omega, by omega, by omega, by omega⟩
      · have hb1 : -1 ≤ (r1 : Int) - 1 := by omega
        have hb2 : (r1 : Int) - 1 ≤ (size.x : Int) := by omega
        have hb3 : -1 ≤ (r2 : Int) - 1 := by omega
        have hb4 : (r2 : Int) - 1 ≤ (size.y : Int) := by omega
        have hb5 : -1 ≤ (r3 : Int) - 1 := by omega
        have hb6 : (r3 : Int) - 1 ≤ (size.z : Int) := by omega
        show voxel_index_i32 size ((r1 : Int) - 1) ((r2 : Int) - 1) ((r3 : Int) - 1) = n
        rw [voxel_index_i32_eq_encode hb1 hb3 hb5 hb2 hb4 hb6 hL29]
        have t1 : ((r1 : Int) - 1 + 1).toNat = r1 := by omega
        have t2 : ((r2 : Int) - 1 + 1).toNat = r2 := by omega
        have t3 : ((r3 : Int) - 1 + 1).toNat = r3 := by omega
        rw [t1, t2, t3, ← hr1, ← hr2, ← hr3]
        exact dec_enc_nat (size.x + 2) (size.y + 2) n
  · have hb1 : -1 ≤ (size.x : Int) := by omega
    have hb2 : (size.x : Int) ≤ (size.x : Int) := le_refl _
    have hb3 : -1 ≤ (size.y : Int) := by omega
    have hb4 : (size.y : Int) ≤ (size.y : Int) := le_refl _
    have hb5 : -1 ≤ (size.z : Int) := by omega
    have hb6 : (size.z : Int) ≤ (size.z : Int) := le_refl _
    rw [voxel_index_i32_eq_encode hb1 hb3 hb5 hb2 hb4 hb6 hL29]
    have t1 : ((size.x : Int) + 1).toNat = size.x + 1 := by omega
    have t2 : ((size.y : Int) + 1).toNat = size.y + 1 := by omega
    have t3 : ((size.z : Int) + 1).toNat = size.z + 1 := by omega
    rw [t1, t2, t3, hLe]
    have expand : (size.x + 2) * (size.y + 2) * (size.z + 2)
        = size.x + 1 + (size.y + 1) * (size.x + 2)
          + (size.z + 1) * ((size.x + 2) * (size.y + 2)) + 1 := by ring
    omega

/-- Witness for `voxel_index_i32_bijection` at size `(1,1,1)`, where the
data vector has `27` cells. -/
theorem voxel_index_i32_bijection_witness :
    get_vec_size ⟨1, 1, 1⟩ = some 27 ∧
    (Set.BijOn (fun p : Int × Int × Int => voxel_index_i32 ⟨1, 1, 1⟩ p.1 p.2.1 p.2.2)
      {p : Int × Int × Int | -1 ≤ p.1 ∧ p.1 ≤ ((1 : Nat) : Int) ∧ -1 ≤ p.2.1
        ∧ p.2.1 ≤ ((1 : Nat) : Int) ∧ -1 ≤ p.2.2 ∧ p.2.2 ≤ ((1 : Nat) : Int)}
      {n : Nat | n < 27} ∧
    voxel_index_i32 ⟨1, 1, 1⟩ ((1 : Nat) : Int) ((1 : Nat) : Int) ((1 : Nat) : Int) = 27 - 1) :=
  ⟨by decide, voxel_index_i32_bijection ⟨1, 1, 1⟩ 27 (by decide)⟩

/-- C2: `commands_mut` evaluated in each state.  The code grants mutable
access in exactly the states other than `Init` — in particular it refuses
access in `Init` and grants it in `Busy` and `Mapping`, contradicting both
the claim and the function's own doc comment. -/
theorem commands_mut_grants_iff_not_init :
    commands_mut CommandListState.Init = false ∧
    commands_mut CommandListState.Busy = true ∧
    commands_mut CommandListState.Mapping = true ∧
    commands_mut CommandListState.Done = true := by
  decide

/-- C3 counterexample: from `Init`, `run_again` returns `true`, where the
claim states it returns `false`. -/
theorem run_again_from_init_returns_true :
    (run_again CommandListState.Init).1 = true := by
  decide

/-- C3 amended: `run_again` returns `true` iff the prior state is `Init` or
`Done`; it resets the state to `Init` exactly when it was `Done` and
leaves it unchanged otherwise. -/
theorem run_again_characterization :
    ∀ s, run_again s =
      (decide (s = CommandListState.Init ∨ s = CommandListState.Done),
       if s = CommandListState.Done then CommandListState.Init else s) := by
  intro s
  cases s <;> rfl

/-- C1: with `n` commands (`n < 2^64`, it is a `usize` count) and `k ≤ n`
callbacks fired, the counter holds `n - k` and the state is still
`Mapping`: `fetch_sub` returns the previous value, which is never 0 within
the first `n` callbacks, so the `Mapping → Done` transition never fires. -/
theorem after_callbacks_stuck_in_mapping (n k : Nat) (hn : n < 2 ^ 64) (hk : k ≤ n) :
    after_callbacks n k = (n - k, CommandListState.Mapping) := by
  induction k with
  | zero => simp [after_callbacks]
  | succ k ih =>
    have hk' : k ≤ n := Nat.le_of_succ_le hk
    have : after_callbacks n (k + 1) = map_callback_step (after_callbacks n k) := by
      simp [after_callbacks, Function.iterate_succ_apply']
    rw [this, ih hk']
    simp only [map_callback_step]
    have h1 : ¬ n - k = 0 := by omega
    simp only [h1, if_false]
    have h2 : (n - k + (2 ^ 64 - 1)) % 2 ^ 64 = n - (k + 1) := by omega
    rw [h2]

/-- Witness for `after_callbacks_stuck_in_mapping` at `n = 1`, `k = 1`. -/
theorem after_callbacks_stuck_in_mapping_witness :
    1 < 2 ^ 64 ∧ 1 ≤ 1 ∧ after_callbacks 1 1 = (0, CommandListState.Mapping) :=
  ⟨by decide, by decide, after_callbacks_stuck_in_mapping 1 1 (by decide) (by decide)⟩

/-- C6 counterexample: `GetVoxelsCommand::prepare` with an absent shared
grid returns normally (leaving the command untouched) instead of
panicking. -/
theorem get_voxels_prepare_no_panic_on_missing_grid :
    get_voxels_prepare ⟨⟨0, 0, 0⟩, 0, none⟩ none = some ⟨⟨0, 0, 0⟩, 0, none⟩ := by
  rfl

/-- C6 amended: with the shared grid absent, `GenerateMeshCommand::prepare`
and `GeometryCommand::prepare` (PasteCube/PasteSphere) panic, while
`GetVoxelsCommand::prepare` returns early without panicking, leaving the
command unprepared. -/
theorem prepare_missing_grid_behavior :
    ∀ (op : GeometryOp) (cmd : GetVoxelsCmd),
      generate_mesh_prepare none = none ∧
      geometry_prepare none op = none ∧
      get_voxels_prepare cmd none = some cmd := by
  intro op cmd
  exact ⟨rfl, rfl, rfl⟩

/-- Folding a length-preserving step over a list preserves the length. -/
lemma foldl_length_invariant {α β : Type} (step : List α → β → List α)
    (hstep : ∀ d c, (step d c).length = d.length) :
    ∀ (l : List β) (d : List α), (l.foldl step d).length = d.length := by
  intro l
  induction l with
  | nil => intro d; rfl
  | cons a l ih =>
    intro d
    rw [List.foldl_cons, ih, hstep]

/-- `getD` after a sequence of `set`s all storing the same value `v`:
the stored value at every written in-bounds index, the original value
elsewhere. -/
lemma foldl_set_getD {α : Type} (v dflt : α) :
    ∀ (l : List Nat) (d : List α) (i : Nat),
      (l.foldl (fun acc idx => acc.set idx v) d).getD i dflt
        = if i ∈ l ∧ i < d.length then v else d.getD i dflt := by
  intro l
  induction l with
  | nil => intro d i; simp
  | cons a l ih =>
    intro d i
    rw [List.foldl_cons, ih]
    simp only [List.length_set, List.mem_cons]
    by_cases h1 : i ∈ l ∧ i < d.length
    · rw [if_pos h1, if_pos ⟨Or.inr h1.1, h1.2⟩]
    · rw [if_neg h1]
      by_cases h2 : i = a
      · subst h2
        by_cases h3 : i < d.length
        · rw [if_pos ⟨Or.inl rfl, h3⟩, List.getD_eq_getElem?_getD,
            List.getElem?_set_self h3, Option.getD_some]
        · rw [if_neg (by tauto), List.getD_eq_getElem?_getD, List.getD_eq_getElem?_getD]
          have hlen : d.length ≤ i := Nat.le_of_not_lt h3
          rw [List.getElem?_eq_none (by simpa using hlen), List.getElem?_eq_none hlen]
      · rw [if_neg (by tauto), List.getD_eq_getElem?_getD, List.getD_eq_getElem?_getD,
          List.getElem?_set_ne (fun h => h2 h.symm)]

/-- `getD` on a list of zeros is zero at every index. -/
lemma getD_replicate_zero (n i : Nat) : (List.replicate n (0 : Nat)).getD i 0 = 0 := by
  rw [List.getD_eq_getElem?_getD, List.getElem?_replicate]
  by_cases h : i < n
  · rw [if_pos h, Option.getD_some]
  · rw [if_neg h, Option.getD_none]

/-- Membership in the unpadded-coordinate enumeration. -/
lemma mem_unpadded_coords {size : UVec3} {a b c : Nat} :
    (a, b, c) ∈ unpadded_coords size ↔ a < size.x ∧ b < size.y ∧ c < size.z := by
  unfold unpadded_coords
  simp only [List.mem_flatMap, List.mem_map, List.mem_range, Prod.mk.injEq]
  constructor
  · rintro ⟨z, hz, y, hy, x, hx, rfl, rfl, rfl⟩
    exact ⟨hx, hy, hz⟩
  · rintro ⟨ha, hb, hc⟩
    exact ⟨c, hc, b, hb, a, ha, rfl, rfl, rfl⟩

/-- `voxel_index` as an explicit mixed-radix encoding. -/
lemma voxel_index_encode (size : UVec3) (x y z : Nat) :
    voxel_index size x y z
      = (x + 1) + (y + 1) * (size.x + 2) + (z + 1) * ((size.x + 2) * (size.y + 2)) := by
  unfold voxel_index
  ring

/-- C9: a grid built by `VoxelGridVec::new` holds the word
`(material as u32) << 24` at every unpadded index, the word `0` at every
padding index, and is entirely zero when the material is `0`. -/
theorem new_uniform_material (size : UVec3) (m : Nat) (g : VoxelGridVec)
    (_hm8 : m < 256) (hnew : VoxelGridVec.new size m = some g) :
    (∀ x y z, x < size.x → y < size.y → z < size.z →
      g.data.getD (voxel_index size x y z) 0 = m <<< 24) ∧
    (∀ x y z : Int, -1 ≤ x → x ≤ (size.x : Int) → -1 ≤ y → y ≤ (size.y : Int) →
      -1 ≤ z → z ≤ (size.z : Int) →
      (x = -1 ∨ x = (size.x : Int) ∨ y = -1 ∨ y = (size.y : Int)
        ∨ z = -1 ∨ z = (size.z : Int)) →
      g.data.getD (voxel_index_i32 size x y z) 0 = 0) ∧
    (m = 0 → g.data = List.replicate g.data.length 0) := by
  unfold VoxelGridVec.new at hnew
  rcases hgv : get_vec_size size with _ | L
  · rw [hgv] at hnew
    exact absurd hnew (by simp)
  rw [hgv] at hnew
  simp only [Option.some.injEq] at hnew
  subst hnew
  obtain ⟨hLe, hguard⟩ := get_vec_size_some hgv
  have hL29 : (size.x + 2) * (size.y + 2) * (size.z + 2) < 2 ^ 29 := by omega
  have hfold : ∀ i : Nat,
      ((unpadded_coords size).foldl
        (fun d c => d.set (voxel_index size c.1 c.2.1 c.2.2) (m <<< 24))
        (List.replicate L 0)).getD i 0
      = if (i ∈ (unpadded_coords size).map
            (fun c => voxel_index size c.1 c.2.1 c.2.2)) ∧ i < L then
          m <<< 24
        else 0 := by
    intro i
    rw [show (unpadded_coords size).foldl
        (fun d c => d.set (voxel_index size c.1 c.2.1 c.2.2) (m <<< 24))
        (List.replicate L 0)
      = ((unpadded_coords size).map (fun c => voxel_index size c.1 c.2.1 c.2.2)).foldl
        (fun d i => d.set i (m <<< 24)) (List.replicate L 0) from
      (List.foldl_map (fun c : Nat × Nat × Nat => voxel_index size c.1 c.2.1 c.2.2)
        (fun d i => d.set i (m <<< 24)) (unpadded_coords size)
        (List.replicate L 0)).symm]
    rw [foldl_set_getD]
    rw [List.length_replicate]
    by_cases h : (i ∈ (unpadded_coords size).map
        (fun c => voxel_index size c.1 c.2.1 c.2.2)) ∧ i < L
    · rw [if_pos h, if_pos h]
    · rw [if_neg h, if_neg h, getD_replicate_zero]
  refine ⟨?_, ?_, ?_⟩
  · intro x y z hx hy hz
    dsimp only
    by_cases hm : m = 0
    · rw [if_neg (by simp [hm]), getD_replicate_zero, hm]
      rfl
    · rw [if_pos hm, hfold]
      have hmem : voxel_index size x y z ∈ (unpadded_coords size).map
          (fun c => voxel_index size c.1 c.2.1 c.2.2) :=
        List.mem_map.mpr ⟨(x, y, z), mem_unpadded_coords.mpr ⟨hx, hy, hz⟩, rfl⟩
      have hxa : x + 1 < size.x + 2 := by omega
      have hya : y + 1 < size.y + 2 := by omega
      have hza : z + 1 < size.z + 2 := by omega
      have hlt : voxel_index size x y z < L := by
        rw [voxel_index_encode, hLe]
        exact mixed_radix_lt hxa hya hza
      rw [if_pos ⟨hmem, hlt⟩]
  · intro x y z h1 h2 h3 h4 h5 h6 hpad
    dsimp only
    by_cases hm : m = 0
    · rw [if_neg (by simp [hm]), getD_replicate_zero]
    · rw [if_pos hm, hfold, if_neg ?_, ]
      rintro ⟨hmem, hlt⟩
      obtain ⟨c, hc, hidx⟩ := List.mem_map.mp hmem
      obtain ⟨a, b, d⟩ := c
      obtain ⟨ha, hb, hd⟩ := mem_unpadded_coords.mp hc
      dsimp only at hidx
      rw [voxel_index_encode, voxel_index_i32_eq_encode h1 h3 h5 h2 h4 h6 hL29] at hidx
      have hxa : a + 1 < size.x + 2 := by omega
      have hya : b + 1 < size.y + 2 := by omega
      have hxa2 : (x + 1).toNat < size.x + 2 := by omega
      have hya2 : (y + 1).toNat < size.y + 2 := by omega
      obtain ⟨e1, e2, e3⟩ := enc3_inj hxa hya hxa2 hya2 hidx
      rcases hpad with h | h | h | h | h | h <;> omega
  · intro hm
    dsimp only
    rw [if_neg (by simp [hm])]
    rw [List.length_replicate]

/-- Witness for `new_uniform_material` at size `(1,1,1)`, material `7`. -/
theorem new_uniform_material_witness :
    (7 : Nat) < 256 ∧
    VoxelGridVec.new ⟨1, 1, 1⟩ 7
      = some ⟨⟨1, 1, 1⟩, (List.replicate 27 0).set 13 (7 <<< 24)⟩ ∧
    ((⟨⟨1, 1, 1⟩, (List.replicate 27 0).set 13 (7 <<< 24)⟩ : VoxelGridVec).data.getD
        (voxel_index ⟨1, 1, 1⟩ 0 0 0) 0 = 7 <<< 24) :=
  ⟨by decide, by decide,
    ((new_uniform_material ⟨1, 1, 1⟩ 7 _ (by decide) (by decide)).1 0 0 0
      (by decide) (by decide) (by decide))⟩

/-- Model of `glam::Vec4` with abstract (exact) scalar components. -/
structure Vec4 where
  x : Int
  y : Int
  z : Int
  w : Int
deriving DecidableEq, Repr

/-- Model of `glam::Vec3` with abstract (exact) scalar components. -/
structure Vec3 where
  x : Int
  y : Int
  z : Int
deriving DecidableEq, Repr

/-- `vec4_to_3` (voxel.rs): drop the `w` component. -/
def vec4_to_3 (v : Vec4) : Vec3 :=
  { x := v.x, y := v.y, z := v.z }

/-- `u32::count_ones`: the population count of a word. -/
def count_ones : Nat → Nat
  | 0 => 0
  | n + 1 => (n + 1) % 2 + count_ones ((n + 1) / 2)
decreasing_by
  omega

/-- The content of the mapped copy buffer read by
`GenerateMeshImpl::get_mesh` (voxel.rs), split into its three regions as
the `cast_slice` calls do: `Vec4` vertex slots, `Vec4` normal slots, and
`u32` bitmask words. -/
structure MappedMeshBuffer where
  num_voxels : Nat
  src_vertexes : List Vec4
  src_normals : List Vec4
  face_filled : List Nat
deriving DecidableEq, Repr

/-- The bitmask test of `get_mesh`:
`face_filled[i / 30] & (1 << (i % 30)) != 0`.  The source indexes the
slice (a panic out of bounds); under the layout well-formedness used in
the theorems the access is always in bounds, so `getD` is exact there. -/
def face_bit (ff : List Nat) (i : Nat) : Bool :=
  Nat.testBit (ff.getD (i / FACE_FILLED_NUM_BITS) 0) (i % FACE_FILLED_NUM_BITS)

/-- The six vertices (after `vec4_to_3`) of face `i` in the dense source
region.  The source indexes the slice (a panic out of bounds); under the
layout well-formedness the access is in bounds. -/
def face_vals (src : List Vec4) (i : Nat) : List Vec3 :=
  (List.range VERTEXES_PER_FACE).map fun j =>
    vec4_to_3 (src.getD (i * VERTEXES_PER_FACE + j) ⟨0, 0, 0, 0⟩)

/-- The inner `for j in 0..VERTEXES_PER_FACE` write loop of `get_mesh`:
store `vals` at consecutive positions starting at `pos`. -/
def blit (out : List Vec3) (pos : Nat) (vals : List Vec3) : List Vec3 :=
  match vals with
  | [] => out
  | v :: rest => blit (out.set pos v) (pos + 1) rest

/-- The compaction loop of `get_mesh`: for each face index whose bit is
set, copy its six vertices and six normals to the next output slots and
advance the `filled` cursor. -/
def fill_loop (b : MappedMeshBuffer) :
    List Nat → List Vec3 → List Vec3 → Nat → List Vec3 × List Vec3 × Nat
  | [], vx, nx, filled => (vx, nx, filled)
  | i :: rest, vx, nx, filled =>
    if face_bit b.face_filled i then
      fill_loop b rest
        (blit vx (filled * VERTEXES_PER_FACE) (face_vals b.src_vertexes i))
        (blit nx (filled * VERTEXES_PER_FACE) (face_vals b.src_normals i))
        (filled + 1)
    else
      fill_loop b rest vx nx filled

/-- The popcount scan of `get_mesh`:
`for mask in face_filled { num_faces += mask.count_ones() }`. -/
def mesh_num_faces (b : MappedMeshBuffer) : Nat :=
  (b.face_filled.map count_ones).sum

/-- `GenerateMeshImpl::get_mesh` (voxel.rs): resize the outputs to
`num_faces * VERTEXES_PER_FACE` default slots, run the compaction loop
over face indices `0..num_voxels * FACES_PER_VOXEL`, and assert
`filled == num_faces` (`none` models the failed assertion). -/
def get_mesh (b : MappedMeshBuffer) : Option (List Vec3 × List Vec3) :=
  match fill_loop b (List.range (b.num_voxels * FACES_PER_VOXEL))
      (List.replicate (mesh_num_faces b * VERTEXES_PER_FACE) ⟨0, 0, 0⟩)
      (List.replicate (mesh_num_faces b * VERTEXES_PER_FACE) ⟨0, 0, 0⟩) 0 with
  | (vx, nx, filled) =>
    if filled = mesh_num_faces b then some (vx, nx) else none

/-- Layout well-formedness of the mapped buffer, as guaranteed by the
region sizes `GenerateMeshImpl::new` allocates: `num_voxels * 6` faces of
6 `Vec4` slots in each dense region, and one mask word per 30 faces,
rounded up. -/
def mesh_wf (b : MappedMeshBuffer) : Prop :=
  b.src_vertexes.length = b.num_voxels * FACES_PER_VOXEL * VERTEXES_PER_FACE ∧
  b.src_normals.length = b.num_voxels * FACES_PER_VOXEL * VERTEXES_PER_FACE ∧
  b.face_filled.length
    = (b.num_voxels * FACES_PER_VOXEL + (FACE_FILLED_NUM_BITS - 1)) / FACE_FILLED_NUM_BITS

instance mesh_wf_decidable (b : MappedMeshBuffer) : Decidable (mesh_wf b) := by
  unfold mesh_wf
  infer_instance

/-- All mask words use only the 30 usable bit positions (the two reserved
bits of every word are clear). -/
def mask_bits_usable (ff : List Nat) : Prop :=
  ∀ w ∈ ff, w < 2 ^ FACE_FILLED_NUM_BITS

instance mask_bits_usable_decidable (ff : List Nat) : Decidable (mask_bits_usable ff) := by
  unfold mask_bits_usable
  infer_instance

/-- Every set bit of the mask encodes a face index below `N`. -/
def mask_bits_in_range (ff : List Nat) (N : Nat) : Prop :=
  ∀ k, k < ff.length → ∀ bit, bit < FACE_FILLED_NUM_BITS →
    Nat.testBit (ff.getD k 0) bit = true → k * FACE_FILLED_NUM_BITS + bit < N

instance mask_bits_in_range_decidable (ff : List Nat) (N : Nat) :
    Decidable (mask_bits_in_range ff N) := by
  unfold mask_bits_in_range
  infer_instance

/-- `count_ones` counts exactly the set bits below `k` for a word below
`2^k`. -/
lemma count_ones_eq : ∀ (k w : Nat), w < 2 ^ k →
    count_ones w = ((List.range k).filter (fun b => Nat.testBit w b)).length := by
  intro k
  induction k with
  | zero =>
    intro w hw
    have hw0 : w = 0 := by simpa using hw
    subst hw0
    simp [count_ones]
  | succ k ih =>
    intro w hw
    have hpow : 2 ^ (k + 1) = 2 * 2 ^ k := by ring
    have hw2 : w / 2 < 2 ^ k := by omega
    have hsplit : count_ones w = w % 2 + count_ones (w / 2) := by
      match w with
      | 0 => simp [count_ones]
      | n + 1 => simp only [count_ones]
    rw [hsplit, List.range_succ_eq_map, List.filter_cons, List.filter_map]
    have hcomp : ((fun b => Nat.testBit w b) ∘ Nat.succ) = fun b => Nat.testBit (w / 2) b := by
      funext b
    
      simp [Function.comp, Nat.testBit_succ]
    rw [hcomp, ih (w / 2) hw2]
    by_cases h0 : Nat.testBit w 0
    · rw [if_pos h0]
      have h1 : w % 2 = 1 := by
        rw [Nat.testBit_zero] at h0
        exact of_decide_eq_true h0
      simp only [List.length_cons, List.length_map]
      omega
    · rw [if_neg h0]
      have h1 : w % 2 = 0 := by
        rw [Nat.testBit_zero] at h0
        have := of_decide_eq_false (Bool.of_not_eq_true h0)
        omega
      simp only [List.length_map]
      omega

/-- A word below `2^k` with no set bit below `k` has popcount zero. -/
lemma count_ones_eq_zero {k w : Nat} (hw : w < 2 ^ k)
    (h : ∀ b, b < k → Nat.testBit w b = false) : count_ones w = 0 := by
  rw [count_ones_eq k w hw]
  rw [List.length_eq_zero]
  rw [List.filter_eq_nil_iff]
  intro b hb
  simp only [List.mem_range] at hb
  simp [h b hb]

/-- `getD` past the end of the mask is zero. -/
lemma getD_of_le_length {l : List Nat} {k : Nat} (h : l.length ≤ k) : l.getD k 0 = 0 := by
  rw [List.getD_eq_getElem?_getD, List.getElem?_eq_none h, Option.getD_none]

/-- The popcount scan equals the number of face indices below `N` whose
bit is set, provided every word uses only its 30 usable bits and every set
bit encodes an index below `N`. -/
lemma filter_range_bits : ∀ (ff : List Nat) (N : Nat),
    (∀ w ∈ ff, w < 2 ^ 30) →
    (∀ k bit, bit < 30 → Nat.testBit (ff.getD k 0) bit = true → k * 30 + bit < N) →
    ((List.range N).filter (fun i => face_bit ff i)).length = (ff.map count_ones).sum := by
  intro ff
  induction ff with
  | nil =>
    intro N _ _
    simp only [List.map_nil, List.sum_nil]
    rw [List.length_eq_zero, List.filter_eq_nil_iff]
    intro a _
    simp [face_bit, Nat.zero_testBit]
  | cons w rest ih =>
    intro N husable hrange
    have hw30 : w < 2 ^ 30 := husable w (List.mem_cons_self w rest)
    rcases Nat.lt_or_ge N 30 with hN | hN
    · have hfb : ∀ i ∈ List.range N,
          (fun i => face_bit (w :: rest) i) i = (fun i => Nat.testBit w i) i := by
        intro i hi
        simp only [List.mem_range] at hi
        show face_bit (w :: rest) i = Nat.testBit w i
        unfold face_bit FACE_FILLED_NUM_BITS
        rw [Nat.div_eq_of_lt (by omega), Nat.mod_eq_of_lt (by omega)]
        rfl
      rw [List.filter_congr hfb]
      have hhigh : ∀ b, N ≤ b → b < 30 → Nat.testBit w b = false := by
        intro b h1 h2
        cases htb : Nat.testBit w b
        · rfl
        · exfalso
          have := hrange 0 b h2 htb
          omega
      have hw : count_ones w = ((List.range N).filter (fun b => Nat.testBit w b)).length := by
        rw [count_ones_eq 30 w hw30]
        rw [show (30 : Nat) = N + (30 - N) by omega, List.range_add, List.filter_append,
          List.length_append]
        have hnil : ((List.range (30 - N)).map (N + ·)).filter (fun b => Nat.testBit w b)
            = [] := by
          rw [List.filter_eq_nil_iff]
          intro a ha
          obtain ⟨b, hb, rfl⟩ := List.mem_map.mp ha
          simp only [List.mem_range] at hb
          simp [hhigh (N + b) (by omega) (by omega)]
        rw [hnil]
        simp
      have hrest : (rest.map count_ones).sum = 0 := by
        apply List.sum_eq_zero
        intro x hx
        obtain ⟨w', hw', rfl⟩ := List.mem_map.mp hx
        obtain ⟨kk, hkk, hw'eq⟩ := List.mem_iff_getElem.mp hw'
        have hw'30 : w' < 2 ^ 30 := husable w' (List.mem_cons_of_mem w hw')
        apply count_ones_eq_zero hw'30
        intro b hb
        cases htb : Nat.testBit w' b
        · rfl
        · exfalso
          have hgd : (w :: rest).getD (kk + 1) 0 = w' := by
            rw [List.getD_cons_succ, List.getD_eq_getElem?_getD,
              List.getElem?_eq_getElem hkk, Option.getD_some]
            exact hw'eq
          have := hrange (kk + 1) b hb (by rw [hgd]; exact htb)
          omega
      simp only [List.map_cons, List.sum_cons, hrest, Nat.add_zero]
      exact hw.symm
    · obtain ⟨M, rfl⟩ : ∃ M, N = 30 + M := ⟨N - 30, by omega⟩
      rw [List.range_add, List.filter_append, List.length_append]
      have hpart1 : ((List.range 30).filter (fun i => face_bit (w :: rest) i)).length
          = count_ones w := by
        have hfb : ∀ i ∈ List.range 30,
            (fun i => face_bit (w :: rest) i) i = (fun i => Nat.testBit w i) i := by
          intro i hi
          simp only [List.mem_range] at hi
          show face_bit (w :: rest) i = Nat.testBit w i
          unfold face_bit FACE_FILLED_NUM_BITS
          rw [Nat.div_eq_of_lt (by omega), Nat.mod_eq_of_lt (by omega)]
          rfl
        rw [List.filter_congr hfb, ← count_ones_eq 30 w hw30]
      have hpart2 : (((List.range M).map (30 + ·)).filter
          (fun i => face_bit (w :: rest) i)).length = (rest.map count_ones).sum := by
        rw [List.filter_map, List.length_map]
        have hcomp : ((fun i => face_bit (w :: rest) i) ∘ (30 + ·))
            = fun i => face_bit rest i := by
          funext i
          show face_bit (w :: rest) (30 + i) = face_bit rest i
          unfold face_bit FACE_FILLED_NUM_BITS
          have hd : (30 + i) / 30 = i / 30 + 1 := by omega
          have hm : (30 + i) % 30 = i % 30 := by omega
          rw [hd, hm, List.getD_cons_succ]
        rw [hcomp]
        apply ih
        · intro w' hw'
          exact husable w' (List.mem_cons_of_mem w hw')
        · intro k bit hbit htb
          have := hrange (k + 1) bit hbit (by rw [List.getD_cons_succ]; exact htb)
          omega
      rw [hpart1, hpart2]
      simp [List.map_cons, List.sum_cons]

/-- `blit` preserves the output length. -/
lemma blit_length : ∀ (vals : List Vec3) (out : List Vec3) (pos : Nat),
    (blit out pos vals).length = out.length := by
  intro vals
  induction vals with
  | nil => intro out pos; rfl
  | cons v vs ih =>
    intro out pos
    show (blit (out.set pos v) (pos + 1) vs).length = out.length
    rw [ih, List.length_set]

/-- Each face contributes exactly six output values. -/
lemma face_vals_length (src : List Vec4) (i : Nat) :
    (face_vals src i).length = VERTEXES_PER_FACE := by
  simp [face_vals]

/-- An in-bounds `blit` replaces the written window and nothing else. -/
lemma blit_eq : ∀ (vals : List Vec3) (out : List Vec3) (pos : Nat),
    pos + vals.length ≤ out.length →
    blit out pos vals = out.take pos ++ vals ++ out.drop (pos + vals.length) := by
  intro vals
  induction vals with
  | nil =>
    intro out pos h
    show out = out.take pos ++ [] ++ out.drop (pos + 0)
    rw [List.append_nil, Nat.add_zero, List.take_append_drop]
  | cons v vs ih =>
    intro out pos h
    simp only [List.length_cons] at h
    show blit (out.set pos v) (pos + 1) vs
        = out.take pos ++ (v :: vs) ++ out.drop (pos + (v :: vs).length)
    simp only [List.length_cons]
    have hpos : pos < out.length := by omega
    rw [ih (out.set pos v) (pos + 1) (by simp only [List.length_set]; omega)]
    rw [List.set_eq_take_cons_drop v hpos]
    have hT : (out.take pos).length = pos := by
      rw [List.length_take]
      omega
    have htake : (out.take pos ++ v :: out.drop (pos + 1)).take (pos + 1)
        = out.take pos ++ [v] := by
      rw [show pos + 1 = (out.take pos).length + 1 by rw [hT]]
      rw [List.take_append]
      rfl
    have hdrop : (out.take pos ++ v :: out.drop (pos + 1)).drop (pos + 1 + vs.length)
        = out.drop (pos + (vs.length + 1)) := by
      rw [show pos + 1 + vs.length = (out.take pos).length + (1 + vs.length) by
        rw [hT]; ring]
      rw [List.drop_append]
      rw [show 1 + vs.length = vs.length + 1 by ring]
      rw [List.drop_succ_cons, List.drop_drop]
      congr 1
      omega
    rw [htake, hdrop]
    simp [List.append_assoc]

/-- The compaction loop writes exactly the faces whose bit is set, in
index order, into consecutive six-slot windows starting at the cursor,
and returns the advanced cursor. -/
lemma fill_loop_spec (b : MappedMeshBuffer) :
    ∀ (idxs : List Nat) (vx nx : List Vec3) (filled : Nat),
      (filled + (idxs.filter (fun i => face_bit b.face_filled i)).length)
          * VERTEXES_PER_FACE ≤ vx.length →
      (filled + (idxs.filter (fun i => face_bit b.face_filled i)).length)
          * VERTEXES_PER_FACE ≤ nx.length →
      fill_loop b idxs vx nx filled
        = (vx.take (filled * VERTEXES_PER_FACE)
            ++ (idxs.filter (fun i => face_bit b.face_filled i)).flatMap
                 (face_vals b.src_vertexes)
            ++ vx.drop ((filled
                 + (idxs.filter (fun i => face_bit b.face_filled i)).length)
                 * VERTEXES_PER_FACE),
           nx.take (filled * VERTEXES_PER_FACE)
            ++ (idxs.filter (fun i => face_bit b.face_filled i)).flatMap
                 (face_vals b.src_normals)
            ++ nx.drop ((filled
                 + (idxs.filter (fun i => face_bit b.face_filled i)).length)
                 * VERTEXES_PER_FACE),
           filled + (idxs.filter (fun i => face_bit b.face_filled i)).length) := by
  intro idxs
  induction idxs with
  | nil =>
    intro vx nx filled hv hn
    simp only [fill_loop, List.filter_nil, List.flatMap_nil, List.length_nil, Nat.add_zero,
      List.append_nil]
    rw [List.take_append_drop, List.take_append_drop]
  | cons i rest ih =>
    intro vx nx filled hv hn
    by_cases hbit : face_bit b.face_filled i
    · rw [List.filter_cons_of_pos hbit] at hv hn ⊢
      simp only [List.length_cons, List.flatMap_cons, VERTEXES_PER_FACE] at hv hn ⊢
      simp only [VERTEXES_PER_FACE] at ih
      simp only [fill_loop, VERTEXES_PER_FACE]
      rw [if_pos hbit]
      set cnt := (rest.filter (fun i => face_bit b.face_filled i)).length with hcnt
      have hlv := blit_length (face_vals b.src_vertexes i) vx (filled * 6)
      have hln := blit_length (face_vals b.src_normals i) nx (filled * 6)
      have hfv6 : (face_vals b.src_vertexes i).length = 6 := by
        rw [face_vals_length]
        rfl
      have hfn6 : (face_vals b.src_normals i).length = 6 := by
        rw [face_vals_length]
        rfl
      rw [ih (blit vx (filled * 6) (face_vals b.src_vertexes i))
          (blit nx (filled * 6) (face_vals b.src_normals i)) (filled + 1)
          (by rw [hlv]; omega) (by rw [hln]; omega)]
      have hblitv : blit vx (filled * 6) (face_vals b.src_vertexes i)
          = vx.take (filled * 6) ++ face_vals b.src_vertexes i
            ++ vx.drop (filled * 6 + 6) := by
        have hb := blit_eq (face_vals b.src_vertexes i) vx (filled * 6)
          (by rw [hfv6]; omega)
        rw [hfv6] at hb
        exact hb
      have hblitn : blit nx (filled * 6) (face_vals b.src_normals i)
          = nx.take (filled * 6) ++ face_vals b.src_normals i
            ++ nx.drop (filled * 6 + 6) := by
        have hb := blit_eq (face_vals b.src_normals i) nx (filled * 6)
          (by rw [hfn6]; omega)
        rw [hfn6] at hb
        exact hb
      simp only [Prod.mk.injEq]
      refine ⟨?_, ?_, by omega⟩
      · rw [hblitv]
        have htk : (vx.take (filled * 6) ++ face_vals b.src_vertexes i
            ++ vx.drop (filled * 6 + 6)).take ((filled + 1) * 6)
            = vx.take (filled * 6) ++ face_vals b.src_vertexes i := by
          apply List.take_left'
          rw [List.length_append, List.length_take, hfv6]
          omega
        have hdp : (vx.take (filled * 6) ++ face_vals b.src_vertexes i
            ++ vx.drop (filled * 6 + 6)).drop ((filled + 1 + cnt) * 6)
            = vx.drop ((filled + (cnt + 1)) * 6) := by
          rw [show (filled + 1 + cnt) * 6
              = (vx.take (filled * 6) ++ face_vals b.src_vertexes i).length + cnt * 6 by
            rw [List.length_append, List.length_take, hfv6]; omega]
          rw [List.drop_append, List.drop_drop]
          congr 1
          omega
        rw [htk, hdp]
        simp [List.append_assoc]
      · rw [hblitn]
        have htk : (nx.take (filled * 6) ++ face_vals b.src_normals i
            ++ nx.drop (filled * 6 + 6)).take ((filled + 1) * 6)
            = nx.take (filled * 6) ++ face_vals b.src_normals i := by
          apply List.take_left'
          rw [List.length_append, List.length_take, hfn6]
          omega
        have hdp : (nx.take (filled * 6) ++ face_vals b.src_normals i
            ++ nx.drop (filled * 6 + 6)).drop ((filled + 1 + cnt) * 6)
            = nx.drop ((filled + (cnt + 1)) * 6) := by
          rw [show (filled + 1 + cnt) * 6
              = (nx.take (filled * 6) ++ face_vals b.src_normals i).length + cnt * 6 by
            rw [List.length_append, List.length_take, hfn6]; omega]
          rw [List.drop_append, List.drop_drop]
          congr 1
          omega
        rw [htk, hdp]
        simp [List.append_assoc]
    · rw [List.filter_cons_of_neg hbit] at hv hn ⊢
      simp only [fill_loop]
      rw [if_neg hbit]
      exact ih vx nx filled hv hn

/-- Bounded bit-range hypothesis extended to every word index: words past
the end of the mask contribute no bits. -/
lemma mask_range_unbounded {ff : List Nat} {N : Nat} (h : mask_bits_in_range ff N) :
    ∀ k bit, bit < 30 → Nat.testBit (ff.getD k 0) bit = true → k * 30 + bit < N := by
  intro k bit hbit htb
  by_cases hk : k < ff.length
  · exact h k hk bit hbit htb
  · rw [getD_of_le_length (Nat.le_of_not_lt hk)] at htb
    simp [Nat.zero_testBit] at htb

/-- A `flatMap` of per-face six-tuples has six entries per face. -/
lemma flatMap_face_vals_length (src : List Vec4) :
    ∀ l : List Nat, (l.flatMap (face_vals src)).length = l.length * VERTEXES_PER_FACE := by
  intro l
  induction l with
  | nil => rfl
  | cons i rest ih =>
    simp only [List.flatMap_cons, List.length_append, ih, face_vals_length, List.length_cons]
    ring

/-- `get_mesh` succeeds on a well-formed bitmask and returns exactly the
present faces, in ascending face-index order, six contiguous source
vertices (and normals) per face. -/
lemma get_mesh_eq_flatMap (b : MappedMeshBuffer)
    (husable : mask_bits_usable b.face_filled)
    (hrange : mask_bits_in_range b.face_filled (b.num_voxels * FACES_PER_VOXEL)) :
    get_mesh b = some
      (((List.range (b.num_voxels * FACES_PER_VOXEL)).filter
          (fun i => face_bit b.face_filled i)).flatMap (face_vals b.src_vertexes),
       ((List.range (b.num_voxels * FACES_PER_VOXEL)).filter
          (fun i => face_bit b.face_filled i)).flatMap (face_vals b.src_normals)) := by
  have hcnt : ((List.range (b.num_voxels * FACES_PER_VOXEL)).filter
      (fun i => face_bit b.face_filled i)).length = mesh_num_faces b :=
    filter_range_bits b.face_filled (b.num_voxels * FACES_PER_VOXEL) husable
      (mask_range_unbounded hrange)
  unfold get_mesh
  rw [fill_loop_spec b (List.range (b.num_voxels * FACES_PER_VOXEL))
      (List.replicate (mesh_num_faces b * VERTEXES_PER_FACE) ⟨0, 0, 0⟩)
      (List.replicate (mesh_num_faces b * VERTEXES_PER_FACE) ⟨0, 0, 0⟩) 0
      (by rw [List.length_replicate, hcnt, Nat.zero_add])
      (by rw [List.length_replicate, hcnt, Nat.zero_add])]
  simp only [Nat.zero_mul, List.take_zero, List.nil_append, Nat.zero_add, hcnt]
  simp

/-- C4: for a mapped buffer whose bitmask uses only usable bit positions
encoding face indices below `num_voxels * 6`, `get_mesh` returns the
present faces compacted in ascending face-index order — face `i`
contributes the six contiguous source slots `[i*6, i*6+6)` — and both
outputs have exactly `F * 6` entries, `F` being the popcount of the
bitmask. -/
theorem get_mesh_extraction_correct (b : MappedMeshBuffer)
    (_hwf : mesh_wf b)
    (husable : mask_bits_usable b.face_filled)
    (hrange : mask_bits_in_range b.face_filled (b.num_voxels * FACES_PER_VOXEL)) :
    get_mesh b = some
      (((List.range (b.num_voxels * FACES_PER_VOXEL)).filter
          (fun i => face_bit b.face_filled i)).flatMap (face_vals b.src_vertexes),
       ((List.range (b.num_voxels * FACES_PER_VOXEL)).filter
          (fun i => face_bit b.face_filled i)).flatMap (face_vals b.src_normals)) ∧
    (((List.range (b.num_voxels * FACES_PER_VOXEL)).filter
        (fun i => face_bit b.face_filled i)).flatMap (face_vals b.src_vertexes)).length
      = mesh_num_faces b * VERTEXES_PER_FACE ∧
    (((List.range (b.num_voxels * FACES_PER_VOXEL)).filter
        (fun i => face_bit b.face_filled i)).flatMap (face_vals b.src_normals)).length
      = mesh_num_faces b * VERTEXES_PER_FACE := by
  have hcnt : ((List.range (b.num_voxels * FACES_PER_VOXEL)).filter
      (fun i => face_bit b.face_filled i)).length = mesh_num_faces b :=
    filter_range_bits b.face_filled (b.num_voxels * FACES_PER_VOXEL) husable
      (mask_range_unbounded hrange)
  refine ⟨get_mesh_eq_flatMap b husable hrange, ?_, ?_⟩
  · rw [flatMap_face_vals_length, hcnt]
  · rw [flatMap_face_vals_length, hcnt]

/-- C8: the final assertion `filled == num_faces` of `get_mesh` holds
whenever the bitmask uses only the 30 usable bit positions per word and
every set bit encodes a face index below `num_voxels * 6`; `get_mesh`
therefore returns a value rather than panicking. -/
theorem get_mesh_assert_never_fails (b : MappedMeshBuffer)
    (_hwf : mesh_wf b)
    (husable : mask_bits_usable b.face_filled)
    (hrange : mask_bits_in_range b.face_filled (b.num_voxels * FACES_PER_VOXEL)) :
    (get_mesh b).isSome = true := by
  rw [get_mesh_eq_flatMap b husable hrange]
  rfl

/-- A concrete well-formed one-voxel buffer: faces 0 and 2 present
(mask word `5`), distinct source slot values. -/
def wit_buffer : MappedMeshBuffer :=
  { num_voxels := 1,
    src_vertexes := (List.range 36).map fun k => ⟨(k : Int), 0, 0, 1⟩,
    src_normals := (List.range 36).map fun k => ⟨0, (k : Int), 0, 1⟩,
    face_filled := [5] }

/-- Witness for `get_mesh_extraction_correct` on `wit_buffer`. -/
theorem get_mesh_extraction_correct_witness :
    mesh_wf wit_buffer ∧ mask_bits_usable wit_buffer.face_filled ∧
    mask_bits_in_range wit_buffer.face_filled
      (wit_buffer.num_voxels * FACES_PER_VOXEL) ∧
    (get_mesh wit_buffer = some
      (((List.range (wit_buffer.num_voxels * FACES_PER_VOXEL)).filter
          (fun i => face_bit wit_buffer.face_filled i)).flatMap
            (face_vals wit_buffer.src_vertexes),
       ((List.range (wit_buffer.num_voxels * FACES_PER_VOXEL)).filter
          (fun i => face_bit wit_buffer.face_filled i)).flatMap
            (face_vals wit_buffer.src_normals)) ∧
    (((List.range (wit_buffer.num_voxels * FACES_PER_VOXEL)).filter
        (fun i => face_bit wit_buffer.face_filled i)).flatMap
          (face_vals wit_buffer.src_vertexes)).length
      = mesh_num_faces wit_buffer * VERTEXES_PER_FACE ∧
    (((List.range (wit_buffer.num_voxels * FACES_PER_VOXEL)).filter
        (fun i => face_bit wit_buffer.face_filled i)).flatMap
          (face_vals wit_buffer.src_normals)).length
      = mesh_num_faces wit_buffer * VERTEXES_PER_FACE) :=
  ⟨by decide, by decide, by decide,
    get_mesh_extraction_correct wit_buffer (by decide) (by decide) (by decide)⟩

/-- Witness for `get_mesh_assert_never_fails` on `wit_buffer`. -/
theorem get_mesh_assert_never_fails_witness :
    mesh_wf wit_buffer ∧ mask_bits_usable wit_buffer.face_filled ∧
    mask_bits_in_range wit_buffer.face_filled
      (wit_buffer.num_voxels * FACES_PER_VOXEL) ∧
    (get_mesh wit_buffer).isSome = true :=
  ⟨by decide, by decide, by decide,
    get_mesh_assert_never_fails wit_buffer (by decide) (by decide) (by decide)⟩

/-- The externally observable callback events of an `async_finish`
completion. -/
inductive FinishEvent where
  | result (vg : VoxelGridVec)
  | meshResult (vertexes normals : List Vec3)
  | completion (ok : Bool)
deriving DecidableEq, Repr

/-- The map-completion closure of `GetVoxelsCommand::async_finish`
(command.rs): on success it reads the mapped words, delivers the
`VoxelGridVec` (with the size captured at prepare time) through the result
callback, then always invokes the completion callback `done` with the map
result; on failure only `done` runs. -/
def get_voxels_map_callback (size : UVec3) (raw : List Nat) (ok : Bool) :
    List FinishEvent :=
  if ok then
    [FinishEvent.result { size := size, data := raw }, FinishEvent.completion true]
  else
    [FinishEvent.completion false]

/-- The map-completion closure of `GenerateMeshCommand::async_finish`
(command.rs): on success it runs `get_mesh` and delivers the mesh and
normals through `receive_result`, then always invokes `done` with the map
result; `none` propagates a `get_mesh` panic. -/
def generate_mesh_map_callback (b : MappedMeshBuffer) (ok : Bool) :
    Option (List FinishEvent) :=
  if ok then
    (get_mesh b).map fun mn =>
      [FinishEvent.meshResult mn.1 mn.2, FinishEvent.completion true]
  else
    some [FinishEvent.completion false]

/-- C7: on a failed map both commands invoke only the completion callback,
exactly once, with the failure; on a successful map the result callback
fires with the data before the single successful completion callback. -/
theorem async_finish_callback_order :
    ∀ (size : UVec3) (raw : List Nat) (b : MappedMeshBuffer),
      get_voxels_map_callback size raw false = [FinishEvent.completion false] ∧
      get_voxels_map_callback size raw true
        = [FinishEvent.result { size := size, data := raw },
           FinishEvent.completion true] ∧
      generate_mesh_map_callback b false = some [FinishEvent.completion false] ∧
      (∀ mesh, get_mesh b = some mesh →
        generate_mesh_map_callback b true
          = some [FinishEvent.meshResult mesh.1 mesh.2,
              FinishEvent.completion true]) := by
  intro size raw b
  refine ⟨rfl, rfl, rfl, ?_⟩
  intro mesh hm
  unfold generate_mesh_map_callback
  rw [if_pos rfl, hm]
  rfl

/-- An empty buffer on which `get_mesh` evaluates concretely. -/
def wit_empty_buffer : MappedMeshBuffer :=
  { num_voxels := 0, src_vertexes := [], src_normals := [], face_filled := [] }

/-- Witness for `async_finish_callback_order` on `wit_empty_buffer`. -/
theorem async_finish_callback_order_witness :
    get_mesh wit_empty_buffer = some ([], []) ∧
    generate_mesh_map_callback wit_empty_buffer true
      = some [FinishEvent.meshResult ([] : List Vec3) ([] : List Vec3),
          FinishEvent.completion true] :=
  ⟨by decide,
    (async_finish_callback_order ⟨0, 0, 0⟩ [] wit_empty_buffer).2.2.2 ([], [])
      (by decide)⟩

/-- The coordinate enumeration of `shape::sphere` (shape.rs): each axis
runs over `0..size + 1`, `z` outermost. -/
def sphere_coords (size : Nat) : List (Nat × Nat × Nat) :=
  (List.range (size + 1)).flatMap fun z =>
    (List.range (size + 1)).flatMap fun y =>
      (List.range (size + 1)).map fun x => (x, y, z)

/-- The `index` closure of `shape::sphere`. -/
def sphere_index (size x y z : Nat) : Nat :=
  (x + 1) + (y + 1) * (size + 2) + (z + 1) * (size + 2) * (size + 2)

/-- The eight `other_inside` probes of `shape::sphere`, summed. -/
def sphere_neighbor_count (insideB : Int → Int → Int → Bool) (x y z : Int) : Nat :=
  (if insideB (x - 1) (y - 1) (z - 1) then 1 else 0)
    + (if insideB (x - 1) (y - 1) z then 1 else 0)
    + (if insideB (x - 1) y (z - 1) then 1 else 0)
    + (if insideB (x - 1) y z then 1 else 0)
    + (if insideB x (y - 1) (z - 1) then 1 else 0)
    + (if insideB x (y - 1) z then 1 else 0)
    + (if insideB x y (z - 1) then 1 else 0)
    + (if insideB x y z then 1 else 0)

/-- One loop body of `shape::sphere`: conditionally OR the material byte
into the voxel, then, on a boundary voxel (neighbour count not 0 and not
8), OR in the offset bytes. -/
def sphere_voxel_step (material : Nat) (insideB : Int → Int → Int → Bool)
    (offsets_word : Nat → Nat → Nat → Nat) (size : Nat)
    (d : List Nat) (c : Nat × Nat × Nat) : List Nat :=
  match c with
  | (x, y, z) =>
    let d1 := if insideB x y z then
        d.set (sphere_index size x y z)
          (d.getD (sphere_index size x y z) 0 ||| (material <<< 24))
      else d
    if sphere_neighbor_count insideB x y z ≠ 0
        ∧ sphere_neighbor_count insideB x y z ≠ 8 then
      d1.set (sphere_index size x y z)
        (d1.getD (sphere_index size x y z) 0 ||| offsets_word x y z)
    else d1

/-- Modelled from the source (`shape.rs`, `sphere`) with the
floating-point geometry abstracted behind parameters: `insideB x y z`
stands for the closure `inside(x as f32, y as f32, z as f32)` (always
called at integer lattice offsets of the loop variables, the `+ 0.5`
centre-shift being internal to the closure) and `offsets_word x y z` for
`delta(x) | delta(y) << 8 | delta(z) << 16`, the rounded `f32` corner
offsets.  The data layout, iteration space and writes follow the source
exactly; only the two `f32`-valued decisions are parameters. -/
def sphere_model (size material : Nat) (insideB : Int → Int → Int → Bool)
    (offsets_word : Nat → Nat → Nat → Nat) : VoxelGridVec :=
  { size := ⟨size, size, size⟩,
    data := (sphere_coords size).foldl
      (sphere_voxel_step material insideB offsets_word size)
      (List.replicate ((size + 2) * (size + 2) * (size + 2)) 0) }

/-- Each sphere loop body preserves the data length. -/
lemma sphere_voxel_step_length (material : Nat) (insideB : Int → Int → Int → Bool)
    (offsets_word : Nat → Nat → Nat → Nat) (size : Nat)
    (d : List Nat) (c : Nat × Nat × Nat) :
    (sphere_voxel_step material insideB offsets_word size d c).length = d.length := by
  obtain ⟨x, y, z⟩ := c
  simp only [sphere_voxel_step]
  split <;> split <;> simp [List.length_set]

/-- Unfolding `get_buf_size = some B`. -/
lemma get_buf_size_some {size : UVec3} {B : Nat} (h : get_buf_size size = some B) :
    B = (size.x + 2) * (size.y + 2) * (size.z + 2) * 4 := by
  unfold get_buf_size check_grid_size at h
  split at h
  · simp at h
  · split at h
    · simp at h
    · simp at h
      omega

/-- C10: the length invariant `data.len() = (sx+2)(sy+2)(sz+2)` holds for
`VoxelGridVec::new`, for `shape::sphere` (whose size field is
`(size,size,size)`), and for the grid delivered by `GetVoxelsCommand`'s
result callback, whose size is the grid size captured by `prepare`. -/
theorem data_length_invariant :
    (∀ size m g, VoxelGridVec.new size m = some g →
      g.data.length = (g.size.x + 2) * (g.size.y + 2) * (g.size.z + 2)) ∧
    (∀ s mat insideB ow,
      (sphere_model s mat insideB ow).size = ⟨s, s, s⟩ ∧
      (sphere_model s mat insideB ow).data.length
        = ((sphere_model s mat insideB ow).size.x + 2)
          * ((sphere_model s mat insideB ow).size.y + 2)
          * ((sphere_model s mat insideB ow).size.z + 2)) ∧
    (∀ cmd0 gsize c raw, get_voxels_prepare cmd0 (some gsize) = some c →
      raw.length = c.buffer_size / 4 →
      get_voxels_map_callback c.size raw true
        = [FinishEvent.result { size := c.size, data := raw },
           FinishEvent.completion true] ∧
      (VoxelGridVec.mk c.size raw).data.length
        = ((VoxelGridVec.mk c.size raw).size.x + 2)
          * ((VoxelGridVec.mk c.size raw).size.y + 2)
          * ((VoxelGridVec.mk c.size raw).size.z + 2)) := by
  refine ⟨?_, ?_, ?_⟩
  · intro size m g hnew
    unfold VoxelGridVec.new at hnew
    rcases hgv : get_vec_size size with _ | L
    · rw [hgv] at hnew
      exact absurd hnew (by simp)
    · rw [hgv] at hnew
      simp only [Option.some.injEq] at hnew
      subst hnew
      obtain ⟨hLe, _⟩ := get_vec_size_some hgv
      dsimp only
      by_cases hm : m ≠ 0
      · rw [if_pos hm]
        rw [foldl_length_invariant
          (fun d c => d.set (voxel_index size c.1 c.2.1 c.2.2) (m <<< 24))
          (fun d c => List.length_set d _ _) (unpadded_coords size)
          (List.replicate L 0)]
        rw [List.length_replicate]
        exact hLe
      · rw [if_neg hm, List.length_replicate]
        exact hLe
  · intro s mat insideB ow
    refine ⟨rfl, ?_⟩
    show ((sphere_coords s).foldl (sphere_voxel_step mat insideB ow s)
        (List.replicate ((s + 2) * (s + 2) * (s + 2)) 0)).length
      = (s + 2) * (s + 2) * (s + 2)
    rw [foldl_length_invariant (sphere_voxel_step mat insideB ow s)
      (sphere_voxel_step_length mat insideB ow s) (sphere_coords s)
      (List.replicate ((s + 2) * (s + 2) * (s + 2)) 0)]
    rw [List.length_replicate]
  · intro cmd0 gsize c raw hprep hraw
    unfold get_voxels_prepare at hprep
    dsimp only at hprep
    rcases hgb : get_buf_size gsize with _ | B
    · rw [hgb] at hprep
      exact absurd hprep (by simp)
    · rw [hgb] at hprep
      simp only [Option.some.injEq] at hprep
      subst hprep
      have hB := get_buf_size_some hgb
      dsimp only at hraw ⊢
      refine ⟨rfl, ?_⟩
      omega

/-- Witness for `data_length_invariant` at size `(1,1,1)`. -/
theorem data_length_invariant_witness :
    VoxelGridVec.new ⟨1, 1, 1⟩ 0 = some ⟨⟨1, 1, 1⟩, List.replicate 27 0⟩ ∧
    (⟨⟨1, 1, 1⟩, List.replicate 27 0⟩ : VoxelGridVec).data.length
      = (1 + 2) * (1 + 2) * (1 + 2) ∧
    get_voxels_prepare ⟨⟨0, 0, 0⟩, 0, none⟩ (some ⟨1, 1, 1⟩)
      = some ⟨⟨1, 1, 1⟩, 108, some 108⟩ ∧
    (List.replicate 27 (0 : Nat)).length = 108 / 4 ∧
    get_voxels_map_callback ⟨1, 1, 1⟩ (List.replicate 27 0) true
      = [FinishEvent.result ⟨⟨1, 1, 1⟩, List.replicate 27 0⟩,
         FinishEvent.completion true] ∧
    (List.replicate 27 (0 : Nat)).length = (1 + 2) * (1 + 2) * (1 + 2) :=
  ⟨by decide,
   data_length_invariant.1 ⟨1, 1, 1⟩ 0 ⟨⟨1, 1, 1⟩, List.replicate 27 0⟩ (by decide),
   by decide, by decide,
   (data_length_invariant.2.2 ⟨⟨0, 0, 0⟩, 0, none⟩ ⟨1, 1, 1⟩ ⟨⟨1, 1, 1⟩, 108, some 108⟩
     (List.replicate 27 0) (by decide) (by decide)).1,
   (data_length_invariant.2.2 ⟨⟨0, 0, 0⟩, 0, none⟩ ⟨1, 1, 1⟩ ⟨⟨1, 1, 1⟩, 108, some 108⟩
     (List.replicate 27 0) (by decide) (by decide)).2⟩
